import Mathlib

/-!
Verification of the GRU unit operator kernels (gru_unit_op.h).

The kernels are shallowly embedded over flat row-major buffers of rational
scalars.  The dense matrix-multiply collaborator (math::gemm) is modelled with
explicit pointer offsets and row strides, exactly mirroring the call sites in
GRUUnitKernel::Compute and GRUUnitGradKernel::Compute.  The elementwise
activation collaborators (SigmoidFunctor and friends, declared in
activation_op.h, outside this source) are kept as opaque-to-us function
parameters; the dispatch logic of ActCompute / ActGradCompute is embedded
faithfully, with PADDLE_THROW modelled as Option.none.
-/

namespace GRUUnit

/-- A flat row-major buffer of rational scalars, indexed by linear offset. -/
def Buf : Type := ℕ → ℚ

/-- A 2-D tensor: its dimensions together with its flat row-major buffer. -/
structure Mat where
  rows : ℕ
  cols : ℕ
  buf : Buf

/-- The all-zero buffer (used for freshly allocated gradient scratch space;
every position the kernels later read from such a buffer is written first). -/
def zeroBuf : Buf := fun _ => 0

/-- Dense matrix-multiply collaborator contract (math::gemm):
C := alpha * op(A) * op(B) + beta * C on row-major flat buffers, where op
transposes when the corresponding flag is set.  ao, bo, co are the pointer
offsets of the three operands into their buffers, and la, lb, lc their row
strides.  Positions of C outside the written M x N region keep their value. -/
def gemm (tA tB : Bool) (M N K : ℕ) (alpha : ℚ) (A : Buf) (ao la : ℕ)
    (B : Buf) (bo lb : ℕ) (beta : ℚ) (C : Buf) (co lc : ℕ) : Buf :=
  fun p =>
    if co ≤ p ∧ (p - co) / lc < M ∧ (p - co) % lc < N then
      alpha * (Finset.range K).sum (fun k =>
          (if tA then A (ao + (k * la + (p - co) / lc))
            else A (ao + ((p - co) / lc * la + k))) *
          (if tB then B (bo + ((p - co) % lc * lb + k))
            else B (bo + (k * lb + (p - co) % lc)))) +
        beta * C p
    else C p

/-- Overwrite the width-w column slice starting at column c0 of a rows x ld
row-major buffer with the values v i j (j relative to the slice start); every
other position keeps its old value. -/
def writeSlice (rows ld c0 w : ℕ) (v : ℕ → ℕ → ℚ) (buf : Buf) : Buf :=
  fun p =>
    if p / ld < rows ∧ c0 ≤ p % ld ∧ p % ld < c0 + w then v (p / ld) (p % ld - c0)
    else buf p

/-- Read element (i, j) of a row-major buffer with row stride ld. -/
def el (ld : ℕ) (buf : Buf) (i j : ℕ) : ℚ := buf (i * ld + j)

/-- The elementwise forward activation collaborators (SigmoidFunctor,
TanhFunctor, ReluFunctor of activation_op.h).  They are declared outside this
source file, so they are kept as function parameters of the model. -/
structure ActFuns where
  sigmoidF : ℚ → ℚ
  tanhF : ℚ → ℚ
  reluF : ℚ → ℚ

/-- The elementwise gradient collaborators (SigmoidGradFunctor,
TanhGradFunctor, ReluGradFunctor), as functions of pre-activation x,
post-activation y and the downstream gradient dy. -/
structure ActGradFuns where
  sigmoidG : ℚ → ℚ → ℚ → ℚ
  tanhG : ℚ → ℚ → ℚ → ℚ
  reluG : ℚ → ℚ → ℚ → ℚ

/-- GRUUnitKernel::ActCompute dispatch: identity = 0, sigmoid = 1, tanh = 2,
relu = 3; any other tag hits PADDLE_THROW, modelled as none. -/
def actCompute (F : ActFuns) (t : ℤ) : Option (ℚ → ℚ) :=
  if t = 0 then some (fun v => v)
  else if t = 1 then some F.sigmoidF
  else if t = 2 then some F.tanhF
  else if t = 3 then some F.reluF
  else none

/-- GRUUnitGradKernel::ActGradCompute dispatch; the identity branch is
dx := dy, any tag outside 0..3 hits PADDLE_THROW, modelled as none. -/
def actGradCompute (G : ActGradFuns) (t : ℤ) : Option (ℚ → ℚ → ℚ → ℚ) :=
  if t = 0 then some (fun _ _ dy => dy)
  else if t = 1 then some G.sigmoidG
  else if t = 2 then some G.tanhG
  else if t = 3 then some G.reluG
  else none

/-- Forward line 74: g = x + bias, the 1 x 3f bias broadcast across
the batch rows of the batch x 3f gate. -/
def gateBias (f : ℕ) (x b : Buf) : Buf := fun p => x p + b (p % (3 * f))

/-- Forward lines 81-84: gate[:, 0:2f] += hiddenPrev * W, beta = 1, where the
multiplier is read from the weight buffer at offset 0 with row stride 2f
(the packed f x 2f update/reset block). -/
def gateGemm1 (batch f : ℕ) (hp w g : Buf) : Buf :=
  gemm false false batch (2 * f) f 1 hp 0 f w 0 (2 * f) 1 g 0 (3 * f)

/-- Gate state after the bias add and the first recurrent gemm (end of the
spec's step 2). -/
def gateAfterGemm1 (batch f : ℕ) (x hp w b : Buf) : Buf :=
  gateGemm1 batch f hp w (gateBias f x b)

/-- In-place elementwise activation of one width-f column slice of the
batch x 3f gate, as performed by ActCompute on g.slice(offsets, extents). -/
def actSlice (fa : ℚ → ℚ) (batch f c0 : ℕ) (g : Buf) : Buf :=
  writeSlice batch (3 * f) c0 f (fun i j => fa (g (i * (3 * f) + (c0 + j)))) g

/-- Forward lines 86-95: gate activation applied in place to the update slice
(columns 0..f) and then to the reset slice (columns f..2f). -/
def gateAfterR (fg : ℚ → ℚ) (batch f : ℕ) (x hp w b : Buf) : Buf :=
  actSlice fg batch f f (actSlice fg batch f 0 (gateAfterGemm1 batch f x hp w b))

/-- Forward line 96: resetHiddenPrev = r * hiddenPrev elementwise, with r the
already-activated reset slice of the gate. -/
def rhpOf (f : ℕ) (g hp : Buf) : Buf :=
  fun p => g (p / f * (3 * f) + (f + p % f)) * hp p

/-- The ResetHiddenPrev output of the forward kernel. -/
def rhpFinal (fg : ℚ → ℚ) (batch f : ℕ) (x hp w b : Buf) : Buf :=
  rhpOf f (gateAfterR fg batch f x hp w b) hp

/-- Forward lines 97-101: gate[:, 2f:3f] += resetHiddenPrev * Wc, beta = 1,
where Wc is read from the weight buffer at offset 2f*f with row stride f
(the packed f x f candidate block). -/
def gateGemm2 (batch f : ℕ) (rhp w g : Buf) : Buf :=
  gemm false false batch f f 1 rhp 0 f w (2 * f * f) f 1 g (2 * f) (3 * f)

/-- The Gate output of the forward kernel: candidate activation applied in
place to columns 2f..3f after the second recurrent gemm. -/
def gateFinal (fg fc : ℚ → ℚ) (batch f : ℕ) (x hp w b : Buf) : Buf :=
  actSlice fc batch f (2 * f)
    (gateGemm2 batch f (rhpFinal fg batch f x hp w b) w (gateAfterR fg batch f x hp w b))

/-- Forward line 109: hidden = u * (hiddenPrev - c) + c, read from the final
gate buffer. -/
def hiddenOf (f : ℕ) (g hp : Buf) : Buf :=
  fun p =>
    g (p / f * (3 * f) + p % f) * (hp p - g (p / f * (3 * f) + (2 * f + p % f))) +
      g (p / f * (3 * f) + (2 * f + p % f))

/-- The three output tensors of the forward kernel. -/
structure FwdOut where
  gate : Buf
  resetHiddenPrev : Buf
  hidden : Buf

/-- GRUUnitKernel::Compute.  batch_size = input.rows and
frame_size = hiddenPrev.cols, exactly as read from the tensor dims; an
unsupported activation tag aborts with no result. -/
def gruUnitForward (F : ActFuns) (gateAct act : ℤ)
    (input hiddenPrev weight bias : Mat) : Option FwdOut :=
  (actCompute F gateAct).bind (fun fg =>
    (actCompute F act).bind (fun fc =>
      some { gate := gateFinal fg fc input.rows hiddenPrev.cols input.buf
               hiddenPrev.buf weight.buf bias.buf
             resetHiddenPrev := rhpFinal fg input.rows hiddenPrev.cols input.buf
               hiddenPrev.buf weight.buf bias.buf
             hidden := hiddenOf hiddenPrev.cols
               (gateFinal fg fc input.rows hiddenPrev.cols input.buf
                 hiddenPrev.buf weight.buf bias.buf)
               hiddenPrev.buf }))

/-- Backward lines 184-186: dGate[:, 0:f] := gu(u, u, dHidden * (hiddenPrev - c)),
written into the freshly allocated (zero-modelled) dGate scratch buffer. -/
def dGateU (gu : ℚ → ℚ → ℚ → ℚ) (batch f : ℕ) (g hp dh : Buf) : Buf :=
  writeSlice batch (3 * f) 0 f
    (fun i j =>
      gu (el (3 * f) g i j) (el (3 * f) g i j)
        (el f dh i j * (el f hp i j - el (3 * f) g i (2 * f + j)))) zeroBuf

/-- Backward lines 187-189: dGate[:, 2f:3f] := gc(c, c, dHidden * (1 - u)). -/
def dGateUC (gu gc : ℚ → ℚ → ℚ → ℚ) (batch f : ℕ) (g hp dh : Buf) : Buf :=
  writeSlice batch (3 * f) (2 * f) f
    (fun i j =>
      gc (el (3 * f) g i (2 * f + j)) (el (3 * f) g i (2 * f + j))
        (el f dh i j * (1 - el (3 * f) g i j)))
    (dGateU gu batch f g hp dh)

/-- Backward lines 190-195: dResetHiddenPrev := dGate[:, 2f:3f] * transpose of
the packed candidate weight block (offset 2f*f, row stride f), beta = 0. -/
def dRhpFinal (gu gc : ℚ → ℚ → ℚ → ℚ) (batch f : ℕ) (g hp w dh : Buf) : Buf :=
  gemm false true batch f f 1 (dGateUC gu gc batch f g hp dh) (2 * f) (3 * f)
    w (2 * f * f) f 0 zeroBuf 0 f

/-- Backward lines 202-204: dGate[:, f:2f] := gu(r, r, dResetHiddenPrev *
hiddenPrev); this completes the dGate buffer. -/
def dGateFinal (gu gc : ℚ → ℚ → ℚ → ℚ) (batch f : ℕ) (g hp w dh : Buf) : Buf :=
  writeSlice batch (3 * f) f f
    (fun i j =>
      gu (el (3 * f) g i (f + j)) (el (3 * f) g i (f + j))
        (el f (dRhpFinal gu gc batch f g hp w dh) i j * el f hp i j))
    (dGateUC gu gc batch f g hp dh)

/-- Backward lines 196-201 then 205-209: the candidate weight-gradient block
(transpose of resetHiddenPrev times dGate[:, 2f:3f], written at offset 2f*f
with row stride f, beta = 0) followed by the update/reset block (transpose of
hiddenPrev times dGate[:, 0:2f], written at offset 0 with row stride 2f,
beta = 0); the two regions are disjoint. -/
def dWeightFinal (gu gc : ℚ → ℚ → ℚ → ℚ) (batch f : ℕ) (g hp w dh rhp : Buf) : Buf :=
  gemm true false f (2 * f) batch 1 hp 0 f
    (dGateFinal gu gc batch f g hp w dh) 0 (3 * f) 0
    (gemm true false f f batch 1 rhp 0 f
      (dGateUC gu gc batch f g hp dh) (2 * f) (3 * f) 0 zeroBuf (2 * f * f) f)
    0 (2 * f)

/-- Backward lines 210-211: dHiddenPrev := dResetHiddenPrev * r + dHidden * u. -/
def dHpDirect (gu gc : ℚ → ℚ → ℚ → ℚ) (batch f : ℕ) (g hp w dh : Buf) : Buf :=
  writeSlice batch f 0 f
    (fun i j =>
      el f (dRhpFinal gu gc batch f g hp w dh) i j * el (3 * f) g i (f + j) +
        el f dh i j * el (3 * f) g i j) zeroBuf

/-- Backward lines 212-215: dHiddenPrev += dGate[:, 0:2f] * transpose of the
packed update/reset weight block (offset 0, row stride 2f), beta = 1. -/
def dHpFinal (gu gc : ℚ → ℚ → ℚ → ℚ) (batch f : ℕ) (g hp w dh : Buf) : Buf :=
  gemm false true batch f (2 * f) 1 (dGateFinal gu gc batch f g hp w dh) 0 (3 * f)
    w 0 (2 * f) 1 (dHpDirect gu gc batch f g hp w dh) 0 f

/-- Backward lines 218-219: dBias := column sums of dGate over the batch. -/
def dBiasFinal (gu gc : ℚ → ℚ → ℚ → ℚ) (batch f : ℕ) (g hp w dh : Buf) : Buf :=
  fun p =>
    if p < 3 * f then
      (Finset.range batch).sum
        (fun i => dGateFinal gu gc batch f g hp w dh (i * (3 * f) + p))
    else 0

/-- Update/reset pre-activation value actually accumulated by the kernel:
input plus broadcast bias plus the first recurrent gemm contribution, the
latter reading the weight buffer with row stride 2f.  Meaningful for j < 2f. -/
def urPre (f : ℕ) (x hp w b : Buf) (i j : ℕ) : ℚ :=
  x (i * (3 * f) + j) + b j +
    (Finset.range f).sum (fun k => hp (i * f + k) * w (k * (2 * f) + j))

/-- Candidate pre-activation value actually accumulated by the kernel:
input plus broadcast bias plus the second recurrent gemm contribution, the
latter multiplying resetHiddenPrev by the packed candidate weight block
(offset 2f*f, row stride f).  Meaningful for j < f. -/
def candPre (f : ℕ) (x w b rhp : Buf) (i j : ℕ) : ℚ :=
  x (i * (3 * f) + (2 * f + j)) + b (2 * f + j) +
    (Finset.range f).sum (fun k => rhp (i * f + k) * w (2 * f * f + (k * f + j)))

/-- The four gradient outputs of the backward kernel. -/
structure BwdOut where
  dInput : Buf
  dHiddenPrev : Buf
  dWeight : Buf
  dBias : Buf

/-- GRUUnitGradKernel::Compute.  The Input tensor is read only for its
dimensions (batch_size = input.rows; the dGate scratch buffer is allocated
with Input's dims); dInput := dGate is the line 216-217 copy. -/
def gruUnitBackward (G : ActGradFuns) (gateAct act : ℤ)
    (input hiddenPrev weight gate resetHiddenPrev hiddenGrad : Mat) : Option BwdOut :=
  (actGradCompute G gateAct).bind (fun gu =>
    (actGradCompute G act).bind (fun gc =>
      some { dInput := dGateFinal gu gc input.rows hiddenPrev.cols gate.buf
               hiddenPrev.buf weight.buf hiddenGrad.buf
             dHiddenPrev := dHpFinal gu gc input.rows hiddenPrev.cols gate.buf
               hiddenPrev.buf weight.buf hiddenGrad.buf
             dWeight := dWeightFinal gu gc input.rows hiddenPrev.cols gate.buf
               hiddenPrev.buf weight.buf hiddenGrad.buf resetHiddenPrev.buf
             dBias := dBiasFinal gu gc input.rows hiddenPrev.cols gate.buf
               hiddenPrev.buf weight.buf hiddenGrad.buf }))

/-- Comparison definition following the spec's words for Forward step 2, NOT
translated from the source: the update/reset gate value after step 2 as
Input plus broadcast Bias plus HiddenPrev times the first 2f columns of the
row-major f x 3f Weight matrix, i.e. Weight element (k, j) read at buffer
offset k * 3f + j.  Meaningful for j < 2f. -/
def specStep2Gate (f : ℕ) (x hp w b : Buf) (i j : ℕ) : ℚ :=
  x (i * (3 * f) + j) + b j +
    (Finset.range f).sum (fun k => hp (i * f + k) * w (k * (3 * f) + j))

/-- Comparison definition following the spec's words for Backward step 7, NOT
translated from the source: dHiddenPrev as dResetHiddenPrev * r plus
dHidden * u plus dGate[:, 0:2f] times the transpose of the first 2f columns
of the row-major f x 3f Weight matrix, i.e. Weight element (j, k) read at
buffer offset j * 3f + k.  Meaningful for j < f. -/
def specDHiddenPrev (gu gc : ℚ → ℚ → ℚ → ℚ) (batch f : ℕ) (g hp w dh : Buf)
    (i j : ℕ) : ℚ :=
  dRhpFinal gu gc batch f g hp w dh (i * f + j) * g (i * (3 * f) + (f + j)) +
    dh (i * f + j) * g (i * (3 * f) + j) +
    (Finset.range (2 * f)).sum (fun k =>
      dGateFinal gu gc batch f g hp w dh (i * (3 * f) + k) * w (j * (3 * f) + k))

/-- Concrete activation collaborators used to exercise the theorems below. -/
def wF : ActFuns := { sigmoidF := fun v => v * v, tanhF := fun v => v + 2, reluF := fun v => v - 1 }

/-- Concrete gradient collaborators used to exercise the theorems below. -/
def wG : ActGradFuns :=
  { sigmoidG := fun x y dy => x + y + dy, tanhG := fun _ y dy => y * dy,
    reluG := fun _ _ dy => dy }

/-- Concrete 1 x 3 input tensor. -/
def wInput : Mat := { rows := 1, cols := 3, buf := fun p => (p : ℚ) }

/-- Concrete 1 x 3 input tensor with the same shape as wInput but different
values. -/
def wInput2 : Mat := { rows := 1, cols := 3, buf := fun _ => 99 }

/-- Concrete 1 x 1 previous hidden state. -/
def wHp : Mat := { rows := 1, cols := 1, buf := fun _ => 2 }

/-- Concrete 1 x 3 weight tensor. -/
def wW : Mat := { rows := 1, cols := 3, buf := fun p => (p : ℚ) + 1 }

/-- Concrete 1 x 3 bias tensor. -/
def wB : Mat := { rows := 1, cols := 3, buf := fun _ => 1 }

/-- Concrete 1 x 3 saved gate tensor for backward calls. -/
def wGate : Mat := { rows := 1, cols := 3, buf := fun p => (p : ℚ) }

/-- Concrete 1 x 1 saved resetHiddenPrev tensor for backward calls. -/
def wRhp : Mat := { rows := 1, cols := 1, buf := fun _ => 3 }

/-- Concrete 1 x 1 downstream hidden gradient for backward calls. -/
def wDh : Mat := { rows := 1, cols := 1, buf := fun _ => 5 }

/-- The forward result on the concrete tensors with gate_activation = sigmoid
and activation = tanh. -/
def wOut : FwdOut :=
  { gate := gateFinal wF.sigmoidF wF.tanhF 1 1 wInput.buf wHp.buf wW.buf wB.buf
    resetHiddenPrev := rhpFinal wF.sigmoidF 1 1 wInput.buf wHp.buf wW.buf wB.buf
    hidden := hiddenOf 1
      (gateFinal wF.sigmoidF wF.tanhF 1 1 wInput.buf wHp.buf wW.buf wB.buf)
      wHp.buf }

/-- The backward result on the concrete tensors with gate_activation = sigmoid
and activation = tanh. -/
def wBout : BwdOut :=
  { dInput := dGateFinal wG.sigmoidG wG.tanhG 1 1 wGate.buf wHp.buf wW.buf wDh.buf
    dHiddenPrev := dHpFinal wG.sigmoidG wG.tanhG 1 1 wGate.buf wHp.buf wW.buf wDh.buf
    dWeight := dWeightFinal wG.sigmoidG wG.tanhG 1 1 wGate.buf wHp.buf wW.buf
      wDh.buf wRhp.buf
    dBias := dBiasFinal wG.sigmoidG wG.tanhG 1 1 wGate.buf wHp.buf wW.buf wDh.buf }

/-- Identity-style gradient collaborators for the concrete refutation below
(they are never reached, since both activation tags are 0 there). -/
def cG : ActGradFuns :=
  { sigmoidG := fun _ _ dy => dy, tanhG := fun _ _ dy => dy,
    reluG := fun _ _ dy => dy }

/-- Concrete 1 x 6 zero input (batch = 1, frame = 2) for the refutation. -/
def cIn : Mat := { rows := 1, cols := 6, buf := fun _ => 0 }

/-- Concrete previous hidden state [1, 1] for the refutation. -/
def cHp : Mat := { rows := 1, cols := 2, buf := fun p => if p < 2 then 1 else 0 }

/-- Concrete 2 x 6 weight whose buffer is 1 at offset 4 and 0 elsewhere. -/
def cW : Mat := { rows := 2, cols := 6, buf := fun p => if p = 4 then 1 else 0 }

/-- Concrete all-zero saved gate for the refutation. -/
def cGate : Mat := { rows := 1, cols := 6, buf := fun _ => 0 }

/-- Concrete all-zero saved resetHiddenPrev for the refutation. -/
def cRhp : Mat := { rows := 1, cols := 2, buf := fun _ => 0 }

/-- Concrete downstream hidden gradient [1, 0] for the refutation. -/
def cDh : Mat := { rows := 1, cols := 2, buf := fun p => if p = 0 then 1 else 0 }

lemma div_index (i j ld : ℕ) (hj : j < ld) : (i * ld + j) / ld = i := by
  rw [Nat.mul_comm, Nat.mul_add_div (by omega), Nat.div_eq_of_lt hj]
  omega

lemma mod_index (i j ld : ℕ) (hj : j < ld) : (i * ld + j) % ld = j := by
  rw [Nat.mul_comm, Nat.mul_add_mod, Nat.mod_eq_of_lt hj]

lemma writeSlice_el (rows ld c0 w : ℕ) (v : ℕ → ℕ → ℚ) (buf : Buf)
    (p i j : ℕ) (hp : p = i * ld + j) (hj : j < ld) :
    writeSlice rows ld c0 w v buf p =
      if i < rows ∧ c0 ≤ j ∧ j < c0 + w then v i (j - c0) else buf p := by
  subst hp
  unfold writeSlice
  rw [div_index i j ld hj, mod_index i j ld hj]

lemma gemm_el (tA tB : Bool) (M N K : ℕ) (alpha : ℚ) (A : Buf) (ao la : ℕ)
    (B : Buf) (bo lb : ℕ) (beta : ℚ) (C : Buf) (co lc : ℕ)
    (p i j : ℕ) (hp : p = co + (i * lc + j)) (hj : j < lc) :
    gemm tA tB M N K alpha A ao la B bo lb beta C co lc p =
      if i < M ∧ j < N then
        alpha * (Finset.range K).sum (fun k =>
            (if tA then A (ao + (k * la + i)) else A (ao + (i * la + k))) *
            (if tB then B (bo + (j * lb + k)) else B (bo + (k * lb + j)))) +
          beta * C p
      else C p := by
  subst hp
  unfold gemm
  have h1 : co + (i * lc + j) - co = i * lc + j := by omega
  rw [h1, div_index i j lc hj, mod_index i j lc hj]
  have h2 : co ≤ co + (i * lc + j) := Nat.le_add_right _ _
  by_cases h : i < M ∧ j < N
  · rw [if_pos ⟨h2, h.1, h.2⟩, if_pos h]
  · rcases Decidable.not_and_iff_or_not.mp h with h3 | h3
    · rw [if_neg (by tauto), if_neg h]
    · rw [if_neg (by tauto), if_neg h]

lemma gemm_untouched (tA tB : Bool) (M N K : ℕ) (alpha : ℚ) (A : Buf) (ao la : ℕ)
    (B : Buf) (bo lb : ℕ) (beta : ℚ) (C : Buf) (co lc : ℕ) (p : ℕ)
    (h : ¬(co ≤ p ∧ (p - co) / lc < M ∧ (p - co) % lc < N)) :
    gemm tA tB M N K alpha A ao la B bo lb beta C co lc p = C p := by
  unfold gemm
  rw [if_neg h]

lemma gateBias_el (f : ℕ) (x b : Buf) (i j : ℕ) (hj : j < 3 * f) :
    el (3 * f) (gateBias f x b) i j = x (i * (3 * f) + j) + b j := by
  simp only [gateBias, el]
  rw [mod_index i j (3 * f) hj]

lemma gateAfterGemm1_el_in (batch f : ℕ) (x hp w b : Buf) (i j : ℕ)
    (hi : i < batch) (hj : j < 2 * f) :
    el (3 * f) (gateAfterGemm1 batch f x hp w b) i j = urPre f x hp w b i j := by
  unfold gateAfterGemm1 gateGemm1 el urPre
  rw [gemm_el false false batch (2 * f) f 1 hp 0 f w 0 (2 * f) 1 (gateBias f x b)
      0 (3 * f) (i * (3 * f) + j) i j (by ring) (by omega), if_pos ⟨hi, hj⟩]
  unfold gateBias
  rw [mod_index i j (3 * f) (by omega)]
  simp only [Bool.false_eq_true, if_false, Nat.zero_add]
  ring

lemma gateAfterGemm1_el_out (batch f : ℕ) (x hp w b : Buf) (i j : ℕ)
    (hj1 : 2 * f ≤ j) (hj2 : j < 3 * f) :
    el (3 * f) (gateAfterGemm1 batch f x hp w b) i j = x (i * (3 * f) + j) + b j := by
  unfold gateAfterGemm1 gateGemm1 el
  rw [gemm_untouched]
  · unfold gateBias
    rw [mod_index i j (3 * f) hj2]
  · rintro ⟨-, -, h3⟩
    rw [Nat.sub_zero, mod_index i j (3 * f) hj2] at h3
    omega

lemma actSlice_el (fa : ℚ → ℚ) (batch f c0 : ℕ) (g : Buf) (i j : ℕ)
    (hj : j < 3 * f) :
    el (3 * f) (actSlice fa batch f c0 g) i j =
      if i < batch ∧ c0 ≤ j ∧ j < c0 + f then fa (el (3 * f) g i j)
      else el (3 * f) g i j := by
  unfold actSlice el
  rw [writeSlice_el batch (3 * f) c0 f _ g (i * (3 * f) + j) i j rfl hj]
  by_cases h : i < batch ∧ c0 ≤ j ∧ j < c0 + f
  · rw [if_pos h, if_pos h]
    have h2 : c0 + (j - c0) = j := by omega
    rw [h2]
  · rw [if_neg h, if_neg h]

lemma rhpOf_el (f : ℕ) (g hp : Buf) (i j : ℕ) (hj : j < f) :
    rhpOf f g hp (i * f + j) = el (3 * f) g i (f + j) * hp (i * f + j) := by
  unfold rhpOf el
  rw [div_index i j f hj, mod_index i j f hj]

lemma gateGemm2_untouched_el (batch f : ℕ) (rhp w g : Buf) (i j : ℕ)
    (hj : j < 2 * f) :
    el (3 * f) (gateGemm2 batch f rhp w g) i j = el (3 * f) g i j := by
  unfold gateGemm2 el
  apply gemm_untouched
  rintro ⟨h1, h2, h3⟩
  rcases i with _ | i2
  · omega
  · have e : (i2 + 1) * (3 * f) + j - 2 * f = i2 * (3 * f) + (f + j) := by
      rw [Nat.succ_mul]
      generalize i2 * (3 * f) = a
      omega
    rw [e, mod_index i2 (f + j) (3 * f) (by omega)] at h3
    omega

lemma gateGemm2_el_in (batch f : ℕ) (rhp w g : Buf) (i j : ℕ)
    (hi : i < batch) (hj : j < f) :
    el (3 * f) (gateGemm2 batch f rhp w g) i (2 * f + j) =
      el (3 * f) g i (2 * f + j) +
        (Finset.range f).sum (fun k => rhp (i * f + k) * w (2 * f * f + (k * f + j))) := by
  unfold gateGemm2 el
  rw [gemm_el false false batch f f 1 rhp 0 f w (2 * f * f) f 1 g (2 * f) (3 * f)
      (i * (3 * f) + (2 * f + j)) i j (by ring) (by omega), if_pos ⟨hi, hj⟩]
  simp only [Bool.false_eq_true, if_false, Nat.zero_add]
  ring

lemma gateAfterR_update_el (fg : ℚ → ℚ) (batch f : ℕ) (x hp w b : Buf) (i j : ℕ)
    (hi : i < batch) (hj : j < f) :
    el (3 * f) (gateAfterR fg batch f x hp w b) i j = fg (urPre f x hp w b i j) := by
  unfold gateAfterR
  rw [actSlice_el fg batch f f _ i j (by omega), if_neg (by omega)]
  rw [actSlice_el fg batch f 0 _ i j (by omega), if_pos ⟨hi, by omega, by omega⟩]
  rw [gateAfterGemm1_el_in batch f x hp w b i j hi (by omega)]

lemma gateAfterR_reset_el (fg : ℚ → ℚ) (batch f : ℕ) (x hp w b : Buf) (i j : ℕ)
    (hi : i < batch) (hj : j < f) :
    el (3 * f) (gateAfterR fg batch f x hp w b) i (f + j) =
      fg (urPre f x hp w b i (f + j)) := by
  unfold gateAfterR
  rw [actSlice_el fg batch f f _ i (f + j) (by omega), if_pos ⟨hi, by omega, by omega⟩]
  rw [actSlice_el fg batch f 0 _ i (f + j) (by omega), if_neg (by omega)]
  rw [gateAfterGemm1_el_in batch f x hp w b i (f + j) hi (by omega)]

lemma gateAfterR_cand_el (fg : ℚ → ℚ) (batch f : ℕ) (x hp w b : Buf) (i j : ℕ)
    (hj : j < f) :
    el (3 * f) (gateAfterR fg batch f x hp w b) i (2 * f + j) =
      x (i * (3 * f) + (2 * f + j)) + b (2 * f + j) := by
  unfold gateAfterR
  rw [actSlice_el fg batch f f _ i (2 * f + j) (by omega), if_neg (by omega)]
  rw [actSlice_el fg batch f 0 _ i (2 * f + j) (by omega), if_neg (by omega)]
  rw [gateAfterGemm1_el_out batch f x hp w b i (2 * f + j) (by omega) (by omega)]

lemma gateFinal_update_el (fg fc : ℚ → ℚ) (batch f : ℕ) (x hp w b : Buf) (i j : ℕ)
    (hi : i < batch) (hj : j < f) :
    el (3 * f) (gateFinal fg fc batch f x hp w b) i j = fg (urPre f x hp w b i j) := by
  unfold gateFinal
  rw [actSlice_el fc batch f (2 * f) _ i j (by omega), if_neg (by omega)]
  rw [gateGemm2_untouched_el batch f _ w _ i j (by omega)]
  exact gateAfterR_update_el fg batch f x hp w b i j hi hj

lemma gateFinal_reset_el (fg fc : ℚ → ℚ) (batch f : ℕ) (x hp w b : Buf) (i j : ℕ)
    (hi : i < batch) (hj : j < f) :
    el (3 * f) (gateFinal fg fc batch f x hp w b) i (f + j) =
      fg (urPre f x hp w b i (f + j)) := by
  unfold gateFinal
  rw [actSlice_el fc batch f (2 * f) _ i (f + j) (by omega), if_neg (by omega)]
  rw [gateGemm2_untouched_el batch f _ w _ i (f + j) (by omega)]
  exact gateAfterR_reset_el fg batch f x hp w b i j hi hj

lemma gateFinal_cand_el (fg fc : ℚ → ℚ) (batch f : ℕ) (x hp w b : Buf) (i j : ℕ)
    (hi : i < batch) (hj : j < f) :
    el (3 * f) (gateFinal fg fc batch f x hp w b) i (2 * f + j) =
      fc (candPre f x w b (rhpFinal fg batch f x hp w b) i j) := by
  unfold gateFinal
  rw [actSlice_el fc batch f (2 * f) _ i (2 * f + j) (by omega),
    if_pos ⟨hi, by omega, by omega⟩]
  rw [gateGemm2_el_in batch f _ w _ i j hi hj]
  rw [gateAfterR_cand_el fg batch f x hp w b i j hj]
  unfold candPre
  rfl

lemma rhpFinal_el (fg fc : ℚ → ℚ) (batch f : ℕ) (x hp w b : Buf) (i j : ℕ)
    (hi : i < batch) (hj : j < f) :
    rhpFinal fg batch f x hp w b (i * f + j) =
      el (3 * f) (gateFinal fg fc batch f x hp w b) i (f + j) * hp (i * f + j) := by
  unfold rhpFinal
  rw [rhpOf_el f _ hp i j hj]
  rw [gateAfterR_reset_el fg batch f x hp w b i j hi hj]
  rw [gateFinal_reset_el fg fc batch f x hp w b i j hi hj]

lemma forward_some (F : ActFuns) (ga a : ℤ) (input hiddenPrev weight bias : Mat)
    (out : FwdOut) (h : gruUnitForward F ga a input hiddenPrev weight bias = some out) :
    ∃ fg fc, actCompute F ga = some fg ∧ actCompute F a = some fc ∧
      out.gate = gateFinal fg fc input.rows hiddenPrev.cols input.buf
        hiddenPrev.buf weight.buf bias.buf ∧
      out.resetHiddenPrev = rhpFinal fg input.rows hiddenPrev.cols input.buf
        hiddenPrev.buf weight.buf bias.buf ∧
      out.hidden = hiddenOf hiddenPrev.cols
        (gateFinal fg fc input.rows hiddenPrev.cols input.buf
          hiddenPrev.buf weight.buf bias.buf) hiddenPrev.buf := by
  unfold gruUnitForward at h
  cases hga : actCompute F ga with
  | none => rw [hga] at h; simp at h
  | some fg =>
    rw [hga] at h
    cases ha : actCompute F a with
    | none => rw [ha] at h; simp at h
    | some fc =>
      rw [ha] at h
      simp only [Option.some_bind, Option.some.injEq] at h
      subst h
      exact ⟨fg, fc, rfl, rfl, rfl, rfl, rfl⟩

lemma dGateU_el (gu : ℚ → ℚ → ℚ → ℚ) (batch f : ℕ) (g hp dh : Buf) (i j : ℕ)
    (hi : i < batch) (hj : j < f) :
    dGateU gu batch f g hp dh (i * (3 * f) + j) =
      gu (g (i * (3 * f) + j)) (g (i * (3 * f) + j))
        (dh (i * f + j) * (hp (i * f + j) - g (i * (3 * f) + (2 * f + j)))) := by
  unfold dGateU
  rw [writeSlice_el batch (3 * f) 0 f _ zeroBuf (i * (3 * f) + j) i j rfl (by omega),
    if_pos ⟨hi, by omega, by omega⟩]
  simp only [el, Nat.sub_zero]

lemma dGateUC_el_c (gu gc : ℚ → ℚ → ℚ → ℚ) (batch f : ℕ) (g hp dh : Buf) (i j : ℕ)
    (hi : i < batch) (hj : j < f) :
    dGateUC gu gc batch f g hp dh (i * (3 * f) + (2 * f + j)) =
      gc (g (i * (3 * f) + (2 * f + j))) (g (i * (3 * f) + (2 * f + j)))
        (dh (i * f + j) * (1 - g (i * (3 * f) + j))) := by
  unfold dGateUC
  rw [writeSlice_el batch (3 * f) (2 * f) f _ _ (i * (3 * f) + (2 * f + j)) i (2 * f + j)
      rfl (by omega), if_pos ⟨hi, by omega, by omega⟩]
  have e : 2 * f + j - 2 * f = j := by omega
  rw [e]
  simp only [el]

lemma dGateUC_el_low (gu gc : ℚ → ℚ → ℚ → ℚ) (batch f : ℕ) (g hp dh : Buf) (i j : ℕ)
    (hj : j < 2 * f) :
    dGateUC gu gc batch f g hp dh (i * (3 * f) + j) =
      dGateU gu batch f g hp dh (i * (3 * f) + j) := by
  unfold dGateUC
  rw [writeSlice_el batch (3 * f) (2 * f) f _ _ (i * (3 * f) + j) i j rfl (by omega),
    if_neg (by omega)]

lemma dGateFinal_el_u (gu gc : ℚ → ℚ → ℚ → ℚ) (batch f : ℕ) (g hp w dh : Buf) (i j : ℕ)
    (hi : i < batch) (hj : j < f) :
    dGateFinal gu gc batch f g hp w dh (i * (3 * f) + j) =
      gu (g (i * (3 * f) + j)) (g (i * (3 * f) + j))
        (dh (i * f + j) * (hp (i * f + j) - g (i * (3 * f) + (2 * f + j)))) := by
  unfold dGateFinal
  rw [writeSlice_el batch (3 * f) f f _ _ (i * (3 * f) + j) i j rfl (by omega),
    if_neg (by omega)]
  rw [dGateUC_el_low gu gc batch f g hp dh i j (by omega)]
  exact dGateU_el gu batch f g hp dh i j hi hj

lemma dGateFinal_el_r (gu gc : ℚ → ℚ → ℚ → ℚ) (batch f : ℕ) (g hp w dh : Buf) (i j : ℕ)
    (hi : i < batch) (hj : j < f) :
    dGateFinal gu gc batch f g hp w dh (i * (3 * f) + (f + j)) =
      gu (g (i * (3 * f) + (f + j))) (g (i * (3 * f) + (f + j)))
        (dRhpFinal gu gc batch f g hp w dh (i * f + j) * hp (i * f + j)) := by
  unfold dGateFinal
  rw [writeSlice_el batch (3 * f) f f _ _ (i * (3 * f) + (f + j)) i (f + j) rfl (by omega),
    if_pos ⟨hi, by omega, by omega⟩]
  have e : f + j - f = j := by omega
  rw [e]
  simp only [el]

lemma dGateFinal_el_c (gu gc : ℚ → ℚ → ℚ → ℚ) (batch f : ℕ) (g hp w dh : Buf) (i j : ℕ)
    (hi : i < batch) (hj : j < f) :
    dGateFinal gu gc batch f g hp w dh (i * (3 * f) + (2 * f + j)) =
      gc (g (i * (3 * f) + (2 * f + j))) (g (i * (3 * f) + (2 * f + j)))
        (dh (i * f + j) * (1 - g (i * (3 * f) + j))) := by
  unfold dGateFinal
  rw [writeSlice_el batch (3 * f) f f _ _ (i * (3 * f) + (2 * f + j)) i (2 * f + j)
      rfl (by omega), if_neg (by omega)]
  exact dGateUC_el_c gu gc batch f g hp dh i j hi hj

lemma dHpFinal_el (gu gc : ℚ → ℚ → ℚ → ℚ) (batch f : ℕ) (g hp w dh : Buf) (i j : ℕ)
    (hi : i < batch) (hj : j < f) :
    dHpFinal gu gc batch f g hp w dh (i * f + j) =
      dRhpFinal gu gc batch f g hp w dh (i * f + j) * g (i * (3 * f) + (f + j)) +
        dh (i * f + j) * g (i * (3 * f) + j) +
        (Finset.range (2 * f)).sum (fun k =>
          dGateFinal gu gc batch f g hp w dh (i * (3 * f) + k) * w (j * (2 * f) + k)) := by
  unfold dHpFinal
  rw [gemm_el false true batch f (2 * f) 1 _ 0 (3 * f) w 0 (2 * f) 1 _ 0 f
      (i * f + j) i j (by ring) (by omega), if_pos ⟨hi, hj⟩]
  unfold dHpDirect
  rw [writeSlice_el batch f 0 f _ zeroBuf (i * f + j) i j rfl (by omega),
    if_pos ⟨hi, by omega, by omega⟩]
  simp only [el, Nat.sub_zero, Nat.zero_add]
  simp
  ring

lemma dBiasFinal_el (gu gc : ℚ → ℚ → ℚ → ℚ) (batch f : ℕ) (g hp w dh : Buf) (j : ℕ)
    (hj : j < 3 * f) :
    dBiasFinal gu gc batch f g hp w dh j =
      (Finset.range batch).sum
        (fun i => dGateFinal gu gc batch f g hp w dh (i * (3 * f) + j)) := by
  unfold dBiasFinal
  rw [if_pos hj]

lemma backward_some (G : ActGradFuns) (ga a : ℤ)
    (input hiddenPrev weight gate resetHiddenPrev hiddenGrad : Mat) (bout : BwdOut)
    (h : gruUnitBackward G ga a input hiddenPrev weight gate resetHiddenPrev
      hiddenGrad = some bout) :
    ∃ gu gc, actGradCompute G ga = some gu ∧ actGradCompute G a = some gc ∧
      bout.dInput = dGateFinal gu gc input.rows hiddenPrev.cols gate.buf
        hiddenPrev.buf weight.buf hiddenGrad.buf ∧
      bout.dHiddenPrev = dHpFinal gu gc input.rows hiddenPrev.cols gate.buf
        hiddenPrev.buf weight.buf hiddenGrad.buf ∧
      bout.dWeight = dWeightFinal gu gc input.rows hiddenPrev.cols gate.buf
        hiddenPrev.buf weight.buf hiddenGrad.buf resetHiddenPrev.buf ∧
      bout.dBias = dBiasFinal gu gc input.rows hiddenPrev.cols gate.buf
        hiddenPrev.buf weight.buf hiddenGrad.buf := by
  unfold gruUnitBackward at h
  cases hga : actGradCompute G ga with
  | none => rw [hga] at h; simp at h
  | some gu =>
    rw [hga] at h
    cases ha : actGradCompute G a with
    | none => rw [ha] at h; simp at h
    | some gc =>
      rw [ha] at h
      simp only [Option.some_bind, Option.some.injEq] at h
      subst h
      exact ⟨gu, gc, rfl, rfl, rfl, rfl, rfl, rfl⟩

/-- Claim C1: after every valid Forward call, the Hidden output equals
u * (HiddenPrev - c) + c elementwise, where u is the post-activation
update-gate slice Gate[:, 0:f] and c is the post-activation candidate slice
Gate[:, 2f:3f] produced by the same call. -/
theorem hidden_eq_update_blend (F : ActFuns) (ga a : ℤ)
    (input hiddenPrev weight bias : Mat) (out : FwdOut)
    (h : gruUnitForward F ga a input hiddenPrev weight bias = some out)
    (i j : ℕ) (_hi : i < input.rows) (hj : j < hiddenPrev.cols) :
    out.hidden (i * hiddenPrev.cols + j) =
      el (3 * hiddenPrev.cols) out.gate i j *
        (hiddenPrev.buf (i * hiddenPrev.cols + j) -
          el (3 * hiddenPrev.cols) out.gate i (2 * hiddenPrev.cols + j)) +
        el (3 * hiddenPrev.cols) out.gate i (2 * hiddenPrev.cols + j) := by
  obtain ⟨fg, fc, -, -, hg, -, hh⟩ :=
    forward_some F ga a input hiddenPrev weight bias out h
  rw [hh, hg]
  simp only [hiddenOf, el]
  rw [div_index i j hiddenPrev.cols hj, mod_index i j hiddenPrev.cols hj]

/-- Claim C1 exercised on the concrete tensors. -/
theorem hidden_eq_update_blend_app :
    wOut.hidden (0 * wHp.cols + 0) =
      el (3 * wHp.cols) wOut.gate 0 0 *
        (wHp.buf (0 * wHp.cols + 0) -
          el (3 * wHp.cols) wOut.gate 0 (2 * wHp.cols + 0)) +
        el (3 * wHp.cols) wOut.gate 0 (2 * wHp.cols + 0) :=
  hidden_eq_update_blend wF 1 2 wInput wHp wW wB wOut rfl 0 0
    (by decide) (by decide)

/-- Claim C2: after every valid Forward call, the three column slices of Gate
hold, respectively, gate_activation of the update pre-activation,
gate_activation of the reset pre-activation, and activation of the candidate
pre-activation (each pre-activation being input plus broadcast bias plus the
corresponding recurrent gemm contribution); no slice is left in
pre-activation form. -/
theorem gate_slices_post_activation (F : ActFuns) (ga a : ℤ)
    (input hiddenPrev weight bias : Mat) (out : FwdOut) (fg fc : ℚ → ℚ)
    (h : gruUnitForward F ga a input hiddenPrev weight bias = some out)
    (hga : actCompute F ga = some fg) (ha : actCompute F a = some fc)
    (i j : ℕ) (hi : i < input.rows) (hj : j < hiddenPrev.cols) :
    el (3 * hiddenPrev.cols) out.gate i j =
      fg (urPre hiddenPrev.cols input.buf hiddenPrev.buf weight.buf bias.buf i j) ∧
    el (3 * hiddenPrev.cols) out.gate i (hiddenPrev.cols + j) =
      fg (urPre hiddenPrev.cols input.buf hiddenPrev.buf weight.buf bias.buf i
        (hiddenPrev.cols + j)) ∧
    el (3 * hiddenPrev.cols) out.gate i (2 * hiddenPrev.cols + j) =
      fc (candPre hiddenPrev.cols input.buf weight.buf bias.buf
        out.resetHiddenPrev i j) := by
  obtain ⟨fg2, fc2, hga2, ha2, hg, hr, -⟩ :=
    forward_some F ga a input hiddenPrev weight bias out h
  rw [hga] at hga2
  rw [ha] at ha2
  obtain rfl : fg = fg2 := Option.some.inj hga2
  obtain rfl : fc = fc2 := Option.some.inj ha2
  refine ⟨?_, ?_, ?_⟩
  · rw [hg]
    exact gateFinal_update_el fg fc input.rows hiddenPrev.cols input.buf
      hiddenPrev.buf weight.buf bias.buf i j hi hj
  · rw [hg]
    exact gateFinal_reset_el fg fc input.rows hiddenPrev.cols input.buf
      hiddenPrev.buf weight.buf bias.buf i j hi hj
  · rw [hg, hr]
    exact gateFinal_cand_el fg fc input.rows hiddenPrev.cols input.buf
      hiddenPrev.buf weight.buf bias.buf i j hi hj

/-- Claim C2 exercised on the concrete tensors. -/
theorem gate_slices_post_activation_app :
    el (3 * wHp.cols) wOut.gate 0 0 =
      wF.sigmoidF (urPre wHp.cols wInput.buf wHp.buf wW.buf wB.buf 0 0) ∧
    el (3 * wHp.cols) wOut.gate 0 (wHp.cols + 0) =
      wF.sigmoidF (urPre wHp.cols wInput.buf wHp.buf wW.buf wB.buf 0
        (wHp.cols + 0)) ∧
    el (3 * wHp.cols) wOut.gate 0 (2 * wHp.cols + 0) =
      wF.tanhF (candPre wHp.cols wInput.buf wW.buf wB.buf
        wOut.resetHiddenPrev 0 0) :=
  gate_slices_post_activation wF 1 2 wInput wHp wW wB wOut wF.sigmoidF wF.tanhF
    rfl rfl rfl 0 0 (by decide) (by decide)

/-- Claim C3 (amended): in Forward the update/reset recurrent term is
accumulated as Gate[:, 0:2f] += HiddenPrev @ Wur with beta = 1, where Wur is
the f x 2f matrix stored in the first 2f*f entries of the Weight buffer with
row stride 2f (NOT the first 2f columns of the row-major f x 3f Weight
matrix); for every valid input the first two gate slices after step 2 equal
Input's first 2f columns plus broadcast Bias plus this matrix product. -/
theorem gate_after_step2_packed (batch f : ℕ) (x hp w b : Buf) (i j : ℕ)
    (hi : i < batch) (hj : j < 2 * f) :
    el (3 * f) (gateAfterGemm1 batch f x hp w b) i j =
      x (i * (3 * f) + j) + b j +
        (Finset.range f).sum (fun k => hp (i * f + k) * w (k * (2 * f) + j)) := by
  rw [gateAfterGemm1_el_in batch f x hp w b i j hi hj]
  simp only [urPre]

/-- Claim C3 (amended) exercised on the concrete tensors. -/
theorem gate_after_step2_packed_app :
    el (3 * 1) (gateAfterGemm1 1 1 wInput.buf wHp.buf wW.buf wB.buf) 0 1 =
      wInput.buf (0 * (3 * 1) + 1) + wB.buf 1 +
        (Finset.range 1).sum
          (fun k => wHp.buf (0 * 1 + k) * wW.buf (k * (2 * 1) + 1)) :=
  gate_after_step2_packed 1 1 wInput.buf wHp.buf wW.buf wB.buf 0 1
    (by decide) (by decide)

/-- Claim C3, counterexample to the claim as stated: with batch = 1,
frame = 2, zero Input and Bias, HiddenPrev = [0, 1] and the Weight buffer
holding p at offset p, the kernel's gate element (0, 0) after step 2 is 4
(it reads Weight offset 1 * 2f + 0 = 4), while Input plus Bias plus
HiddenPrev times the first 2f columns of the row-major f x 3f Weight matrix
is 6 there (reading offset 1 * 3f + 0 = 6). -/
theorem update_reset_colslice_refuted :
    el (3 * 2) (gateAfterGemm1 1 2 (fun _ => 0) (fun p => if p = 1 then 1 else 0)
        (fun p => (p : ℚ)) (fun _ => 0)) 0 0 = 4 ∧
    specStep2Gate 2 (fun _ => 0) (fun p => if p = 1 then 1 else 0)
        (fun p => (p : ℚ)) (fun _ => 0) 0 0 = 6 ∧
    el (3 * 2) (gateAfterGemm1 1 2 (fun _ => 0) (fun p => if p = 1 then 1 else 0)
        (fun p => (p : ℚ)) (fun _ => 0)) 0 0 ≠
      specStep2Gate 2 (fun _ => 0) (fun p => if p = 1 then 1 else 0)
        (fun p => (p : ℚ)) (fun _ => 0) 0 0 := by
  have h1 : el (3 * 2) (gateAfterGemm1 1 2 (fun _ => 0)
      (fun p => if p = 1 then 1 else 0) (fun p => (p : ℚ)) (fun _ => 0)) 0 0 = 4 := by
    norm_num [el, gateAfterGemm1, gateGemm1, gateBias, gemm, Finset.sum_range_succ]
  have h2 : specStep2Gate 2 (fun _ => 0) (fun p => if p = 1 then 1 else 0)
      (fun p => (p : ℚ)) (fun _ => 0) 0 0 = 6 := by
    norm_num [specStep2Gate, Finset.sum_range_succ]
  refine ⟨h1, h2, ?_⟩
  rw [h1, h2]
  norm_num

/-- Claim C4: after every valid Forward call, ResetHiddenPrev equals the
elementwise product of the post-activation reset gate Gate[:, f:2f] and
HiddenPrev, and it is computed before the candidate recurrent accumulation
uses it: the candidate slice is the activation of a pre-activation whose
recurrent contribution reads the ResetHiddenPrev output itself. -/
theorem reset_hidden_prev_gating (F : ActFuns) (ga a : ℤ)
    (input hiddenPrev weight bias : Mat) (out : FwdOut) (fc : ℚ → ℚ)
    (h : gruUnitForward F ga a input hiddenPrev weight bias = some out)
    (ha : actCompute F a = some fc)
    (i j : ℕ) (hi : i < input.rows) (hj : j < hiddenPrev.cols) :
    out.resetHiddenPrev (i * hiddenPrev.cols + j) =
      el (3 * hiddenPrev.cols) out.gate i (hiddenPrev.cols + j) *
        hiddenPrev.buf (i * hiddenPrev.cols + j) ∧
    el (3 * hiddenPrev.cols) out.gate i (2 * hiddenPrev.cols + j) =
      fc (candPre hiddenPrev.cols input.buf weight.buf bias.buf
        out.resetHiddenPrev i j) := by
  obtain ⟨fg, fc2, hga2, ha2, hg, hr, -⟩ :=
    forward_some F ga a input hiddenPrev weight bias out h
  rw [ha] at ha2
  obtain rfl : fc = fc2 := Option.some.inj ha2
  constructor
  · rw [hr, hg]
    exact rhpFinal_el fg fc input.rows hiddenPrev.cols input.buf hiddenPrev.buf
      weight.buf bias.buf i j hi hj
  · rw [hg, hr]
    exact gateFinal_cand_el fg fc input.rows hiddenPrev.cols input.buf
      hiddenPrev.buf weight.buf bias.buf i j hi hj

/-- Claim C4 exercised on the concrete tensors. -/
theorem reset_hidden_prev_gating_app :
    wOut.resetHiddenPrev (0 * wHp.cols + 0) =
      el (3 * wHp.cols) wOut.gate 0 (wHp.cols + 0) *
        wHp.buf (0 * wHp.cols + 0) ∧
    el (3 * wHp.cols) wOut.gate 0 (2 * wHp.cols + 0) =
      wF.tanhF (candPre wHp.cols wInput.buf wW.buf wB.buf
        wOut.resetHiddenPrev 0 0) :=
  reset_hidden_prev_gating wF 1 2 wInput wHp wW wB wOut wF.tanhF rfl rfl 0 0
    (by decide) (by decide)

/-- Claim C5: for every activation-kind attribute value outside {0, 1, 2, 3},
both Forward and Backward fail fatally with no result, whether the bad tag is
the gate activation or the candidate activation; they never silently fall
back to a default activation. -/
theorem invalid_activation_rejected (F : ActFuns) (G : ActGradFuns) (t a : ℤ)
    (input hiddenPrev weight bias gate resetHiddenPrev hiddenGrad : Mat)
    (h0 : t ≠ 0) (h1 : t ≠ 1) (h2 : t ≠ 2) (h3 : t ≠ 3) :
    gruUnitForward F t a input hiddenPrev weight bias = none ∧
    gruUnitForward F a t input hiddenPrev weight bias = none ∧
    gruUnitBackward G t a input hiddenPrev weight gate resetHiddenPrev
      hiddenGrad = none ∧
    gruUnitBackward G a t input hiddenPrev weight gate resetHiddenPrev
      hiddenGrad = none := by
  have hf : actCompute F t = none := by
    unfold actCompute
    rw [if_neg h0, if_neg h1, if_neg h2, if_neg h3]
  have hgr : actGradCompute G t = none := by
    unfold actGradCompute
    rw [if_neg h0, if_neg h1, if_neg h2, if_neg h3]
  refine ⟨?_, ?_, ?_, ?_⟩
  · unfold gruUnitForward
    rw [hf]
    rfl
  · unfold gruUnitForward
    cases actCompute F a with
    | none => rfl
    | some fg => simp only [Option.some_bind, hf, Option.none_bind]
  · unfold gruUnitBackward
    rw [hgr]
    rfl
  · unfold gruUnitBackward
    cases actGradCompute G a with
    | none => rfl
    | some gu => simp only [Option.some_bind, hgr, Option.none_bind]

/-- Claim C5 exercised at the unsupported tag 7. -/
theorem invalid_activation_rejected_app :
    gruUnitForward wF 7 0 wInput wHp wW wB = none ∧
    gruUnitForward wF 0 7 wInput wHp wW wB = none ∧
    gruUnitBackward wG 7 0 wInput wHp wW wGate wRhp wDh = none ∧
    gruUnitBackward wG 0 7 wInput wHp wW wGate wRhp wDh = none :=
  invalid_activation_rejected wF wG 7 0 wInput wHp wW wB wGate wRhp wDh
    (by decide) (by decide) (by decide) (by decide)

/-- Claim C6: in Backward, the candidate-branch pre-activation gradient slice
dGate[:, 2f:3f] equals act_grad(activation, c, c, dHidden * (1 - u)), where
u and c are the update and candidate slices of the Forward-produced Gate,
dHidden the downstream gradient, and gc the gradient function dispatched for
the activation attribute of the call. -/
theorem candidate_grad_slice (G : ActGradFuns) (ga a : ℤ)
    (input hiddenPrev weight gate resetHiddenPrev hiddenGrad : Mat)
    (bout : BwdOut) (gu gc : ℚ → ℚ → ℚ → ℚ)
    (_h : gruUnitBackward G ga a input hiddenPrev weight gate resetHiddenPrev
      hiddenGrad = some bout)
    (_hga : actGradCompute G ga = some gu) (_ha : actGradCompute G a = some gc)
    (i j : ℕ) (hi : i < input.rows) (hj : j < hiddenPrev.cols) :
    dGateFinal gu gc input.rows hiddenPrev.cols gate.buf hiddenPrev.buf
        weight.buf hiddenGrad.buf
        (i * (3 * hiddenPrev.cols) + (2 * hiddenPrev.cols + j)) =
      gc (el (3 * hiddenPrev.cols) gate.buf i (2 * hiddenPrev.cols + j))
        (el (3 * hiddenPrev.cols) gate.buf i (2 * hiddenPrev.cols + j))
        (el hiddenPrev.cols hiddenGrad.buf i j *
          (1 - el (3 * hiddenPrev.cols) gate.buf i j)) := by
  simp only [el]
  exact dGateFinal_el_c gu gc input.rows hiddenPrev.cols gate.buf hiddenPrev.buf
    weight.buf hiddenGrad.buf i j hi hj

/-- Claim C6 exercised on the concrete tensors. -/
theorem candidate_grad_slice_app :
    dGateFinal wG.sigmoidG wG.tanhG wInput.rows wHp.cols wGate.buf wHp.buf
        wW.buf wDh.buf (0 * (3 * wHp.cols) + (2 * wHp.cols + 0)) =
      wG.tanhG (el (3 * wHp.cols) wGate.buf 0 (2 * wHp.cols + 0))
        (el (3 * wHp.cols) wGate.buf 0 (2 * wHp.cols + 0))
        (el wHp.cols wDh.buf 0 0 * (1 - el (3 * wHp.cols) wGate.buf 0 0)) :=
  candidate_grad_slice wG 1 2 wInput wHp wW wGate wRhp wDh wBout
    wG.sigmoidG wG.tanhG rfl rfl rfl 0 0 (by decide) (by decide)

/-- Claim C7: for every valid Backward call the input gradient equals the
full 3f-column gate gradient dGate, with no further chain-rule
transformation applied to it. -/
theorem input_grad_eq_gate_grad (G : ActGradFuns) (ga a : ℤ)
    (input hiddenPrev weight gate resetHiddenPrev hiddenGrad : Mat)
    (bout : BwdOut) (gu gc : ℚ → ℚ → ℚ → ℚ)
    (h : gruUnitBackward G ga a input hiddenPrev weight gate resetHiddenPrev
      hiddenGrad = some bout)
    (hga : actGradCompute G ga = some gu) (ha : actGradCompute G a = some gc)
    (p : ℕ) :
    bout.dInput p = dGateFinal gu gc input.rows hiddenPrev.cols gate.buf
      hiddenPrev.buf weight.buf hiddenGrad.buf p := by
  obtain ⟨gu2, gc2, hga2, ha2, hdi, -, -, -⟩ :=
    backward_some G ga a input hiddenPrev weight gate resetHiddenPrev
      hiddenGrad bout h
  rw [hga] at hga2
  rw [ha] at ha2
  obtain rfl : gu = gu2 := Option.some.inj hga2
  obtain rfl : gc = gc2 := Option.some.inj ha2
  rw [hdi]

/-- Claim C7 exercised on the concrete tensors. -/
theorem input_grad_eq_gate_grad_app :
    wBout.dInput 2 = dGateFinal wG.sigmoidG wG.tanhG wInput.rows wHp.cols
      wGate.buf wHp.buf wW.buf wDh.buf 2 :=
  input_grad_eq_gate_grad wG 1 2 wInput wHp wW wGate wRhp wDh wBout
    wG.sigmoidG wG.tanhG rfl rfl rfl 2

/-- Claim C8 (amended): for every valid Backward call the previous-hidden
gradient equals dResetHiddenPrev * r + dHidden * u plus the final gate
gradient dGate[:, 0:2f] times the transpose of the packed f x 2f update/reset
weight block (Weight buffer element j * 2f + k, NOT the first 2f columns of
the row-major f x 3f Weight matrix); the accumulated dGate is the completed
one, whose reset slice was already written by the reset-gate branch. -/
theorem dhidden_prev_packed (G : ActGradFuns) (ga a : ℤ)
    (input hiddenPrev weight gate resetHiddenPrev hiddenGrad : Mat)
    (bout : BwdOut) (gu gc : ℚ → ℚ → ℚ → ℚ)
    (h : gruUnitBackward G ga a input hiddenPrev weight gate resetHiddenPrev
      hiddenGrad = some bout)
    (hga : actGradCompute G ga = some gu) (ha : actGradCompute G a = some gc)
    (i j : ℕ) (hi : i < input.rows) (hj : j < hiddenPrev.cols) :
    bout.dHiddenPrev (i * hiddenPrev.cols + j) =
      dRhpFinal gu gc input.rows hiddenPrev.cols gate.buf hiddenPrev.buf
          weight.buf hiddenGrad.buf (i * hiddenPrev.cols + j) *
        el (3 * hiddenPrev.cols) gate.buf i (hiddenPrev.cols + j) +
      el hiddenPrev.cols hiddenGrad.buf i j *
        el (3 * hiddenPrev.cols) gate.buf i j +
      (Finset.range (2 * hiddenPrev.cols)).sum (fun k =>
        dGateFinal gu gc input.rows hiddenPrev.cols gate.buf hiddenPrev.buf
            weight.buf hiddenGrad.buf (i * (3 * hiddenPrev.cols) + k) *
          weight.buf (j * (2 * hiddenPrev.cols) + k)) := by
  obtain ⟨gu2, gc2, hga2, ha2, -, hdh, -, -⟩ :=
    backward_some G ga a input hiddenPrev weight gate resetHiddenPrev
      hiddenGrad bout h
  rw [hga] at hga2
  rw [ha] at ha2
  obtain rfl : gu = gu2 := Option.some.inj hga2
  obtain rfl : gc = gc2 := Option.some.inj ha2
  rw [hdh]
  simp only [el]
  exact dHpFinal_el gu gc input.rows hiddenPrev.cols gate.buf hiddenPrev.buf
    weight.buf hiddenGrad.buf i j hi hj

/-- Claim C8 (amended) exercised on the concrete tensors. -/
theorem dhidden_prev_packed_app :
    wBout.dHiddenPrev (0 * wHp.cols + 0) =
      dRhpFinal wG.sigmoidG wG.tanhG wInput.rows wHp.cols wGate.buf wHp.buf
          wW.buf wDh.buf (0 * wHp.cols + 0) *
        el (3 * wHp.cols) wGate.buf 0 (wHp.cols + 0) +
      el wHp.cols wDh.buf 0 0 * el (3 * wHp.cols) wGate.buf 0 0 +
      (Finset.range (2 * wHp.cols)).sum (fun k =>
        dGateFinal wG.sigmoidG wG.tanhG wInput.rows wHp.cols wGate.buf wHp.buf
            wW.buf wDh.buf (0 * (3 * wHp.cols) + k) *
          wW.buf (0 * (2 * wHp.cols) + k)) :=
  dhidden_prev_packed wG 1 2 wInput wHp wW wGate wRhp wDh wBout
    wG.sigmoidG wG.tanhG rfl rfl rfl 0 0 (by decide) (by decide)

/-- Claim C8, counterexample to the claim as stated: with batch = 1,
frame = 2, identity activations, zero Gate, HiddenPrev = [1, 1],
dHidden = [1, 0] and a Weight buffer that is 1 at offset 4 and 0 elsewhere,
the kernel's dHiddenPrev element (0, 1) is 1 (its gemm reads Weight offset
1 * 2f + 0 = 4), while dResetHiddenPrev * r + dHidden * u + dGate[:, 0:2f]
times the transpose of the first 2f columns of the row-major f x 3f Weight
matrix is 0 there (that reading uses offset 1 * 3f + 0 = 6). -/
theorem dhidden_prev_colslice_refuted :
    (gruUnitBackward cG 0 0 cIn cHp cW cGate cRhp cDh).map
      (fun o => o.dHiddenPrev 1) = some 1 ∧
    specDHiddenPrev (fun _ _ dy => dy) (fun _ _ dy => dy) 1 2 cGate.buf cHp.buf
      cW.buf cDh.buf 0 1 = 0 ∧
    (gruUnitBackward cG 0 0 cIn cHp cW cGate cRhp cDh).map
        (fun o => o.dHiddenPrev 1) ≠
      some (specDHiddenPrev (fun _ _ dy => dy) (fun _ _ dy => dy) 1 2 cGate.buf
        cHp.buf cW.buf cDh.buf 0 1) := by
  have h1 : (gruUnitBackward cG 0 0 cIn cHp cW cGate cRhp cDh).map
      (fun o => o.dHiddenPrev 1) =
      some (dHpFinal (fun _ _ dy => dy) (fun _ _ dy => dy) 1 2 cGate.buf cHp.buf
        cW.buf cDh.buf 1) := rfl
  have h2 : dHpFinal (fun _ _ dy => dy) (fun _ _ dy => dy) 1 2 cGate.buf cHp.buf
      cW.buf cDh.buf 1 = 1 := by
    norm_num [dHpFinal, dHpDirect, dRhpFinal, dGateFinal, dGateUC, dGateU,
      writeSlice, gemm, zeroBuf, el, cGate, cHp, cW, cDh, Finset.sum_range_succ]
  have h3 : specDHiddenPrev (fun _ _ dy => dy) (fun _ _ dy => dy) 1 2 cGate.buf
      cHp.buf cW.buf cDh.buf 0 1 = 0 := by
    norm_num [specDHiddenPrev, dRhpFinal, dGateFinal, dGateUC, dGateU,
      writeSlice, gemm, zeroBuf, el, cGate, cHp, cW, cDh, Finset.sum_range_succ]
  refine ⟨by rw [h1, h2], h3, ?_⟩
  rw [h1, h2, h3]
  simp

/-- Claim C9: for every valid Backward call the bias gradient equals the
column sum of the full gate gradient dGate over the batch rows. -/
theorem bias_grad_column_sum (G : ActGradFuns) (ga a : ℤ)
    (input hiddenPrev weight gate resetHiddenPrev hiddenGrad : Mat)
    (bout : BwdOut) (gu gc : ℚ → ℚ → ℚ → ℚ)
    (h : gruUnitBackward G ga a input hiddenPrev weight gate resetHiddenPrev
      hiddenGrad = some bout)
    (hga : actGradCompute G ga = some gu) (ha : actGradCompute G a = some gc)
    (j : ℕ) (hj : j < 3 * hiddenPrev.cols) :
    bout.dBias j = (Finset.range input.rows).sum (fun i =>
      el (3 * hiddenPrev.cols) (dGateFinal gu gc input.rows hiddenPrev.cols
        gate.buf hiddenPrev.buf weight.buf hiddenGrad.buf) i j) := by
  obtain ⟨gu2, gc2, hga2, ha2, -, -, -, hdb⟩ :=
    backward_some G ga a input hiddenPrev weight gate resetHiddenPrev
      hiddenGrad bout h
  rw [hga] at hga2
  rw [ha] at ha2
  obtain rfl : gu = gu2 := Option.some.inj hga2
  obtain rfl : gc = gc2 := Option.some.inj ha2
  rw [hdb]
  simp only [el]
  exact dBiasFinal_el gu gc input.rows hiddenPrev.cols gate.buf hiddenPrev.buf
    weight.buf hiddenGrad.buf j hj

/-- Claim C9 exercised on the concrete tensors. -/
theorem bias_grad_column_sum_app :
    wBout.dBias 2 = (Finset.range wInput.rows).sum (fun i =>
      el (3 * wHp.cols) (dGateFinal wG.sigmoidG wG.tanhG wInput.rows wHp.cols
        wGate.buf wHp.buf wW.buf wDh.buf) i 2) :=
  bias_grad_column_sum wG 1 2 wInput wHp wW wGate wRhp wDh wBout
    wG.sigmoidG wG.tanhG rfl rfl rfl 2 (by decide)

/-- Claim C10: Backward's four gradient outputs are independent of the
numerical contents of Input: two calls that agree on everything else and
whose Input tensors merely have the same rows and cols produce identical
results, since Input is read only for its dimensions. -/
theorem backward_ignores_input_values (G : ActGradFuns) (ga a : ℤ)
    (input input2 hiddenPrev weight gate resetHiddenPrev hiddenGrad : Mat)
    (hr : input.rows = input2.rows) (_hc : input.cols = input2.cols) :
    gruUnitBackward G ga a input hiddenPrev weight gate resetHiddenPrev
      hiddenGrad =
      gruUnitBackward G ga a input2 hiddenPrev weight gate resetHiddenPrev
        hiddenGrad := by
  unfold gruUnitBackward
  rw [hr]

/-- Claim C10 exercised on two concrete inputs with equal shapes and
different values. -/
theorem backward_ignores_input_values_app :
    gruUnitBackward wG 1 2 wInput wHp wW wGate wRhp wDh =
      gruUnitBackward wG 1 2 wInput2 wHp wW wGate wRhp wDh :=
  backward_ignores_input_values wG 1 2 wInput wInput2 wHp wW wGate wRhp wDh
    rfl rfl

end GRUUnit
